import Mathlib

/-! Shared CLI flags of `internal/cmd/flags.go`.

A shallow embedding of the package `cmd`: the six flag descriptors, their
binders, and `ParseFlagPluginConfig`.

Modelling conventions.
* A Go `string` is a Lean `String` (a sequence of characters).  The only
  separator the package ever searches for is `"="`, one ASCII byte, which in
  UTF-8 never occurs inside a multi-byte sequence, so cutting by character and
  cutting by byte agree.
* A Go `[]string` is an `Option (List String)`: `none` is the `nil` slice.
* A Go `map[string]string` is an `Option GoMap`: `none` is the `nil` map and
  `GoMap` is an association list with pairwise distinct keys.
* A Go `error` is an `Option String`: `none` is `nil`, `some msg` is an error
  whose `Error()` text is `msg`.
-/

namespace strings

/-! ## The `strings` functions used by the package -/

/-- Go `strings.HasPrefix` on character lists: `s` starts with `p`. -/
def hasPrefixChars : List Char → List Char → Bool
  | _, [] => true
  | [], _ :: _ => false
  | c :: s, d :: p => c == d && hasPrefixChars s p

/-- Go `strings.Index` on character lists: the position of the first
occurrence of `sep` in `s`, `none` standing for Go's `-1`. -/
def indexChars : List Char → List Char → Option Nat
  | [], sep => if hasPrefixChars [] sep then some 0 else none
  | c :: s, sep =>
    if hasPrefixChars (c :: s) sep then some 0
    else (indexChars s sep).map (fun i => i + 1)

/-- Go `strings.Index`. -/
def Index (s sep : String) : Option Nat := indexChars s.data sep.data

/-- Go `strings.Contains`: `Index(s, substr) >= 0`. -/
def Contains (s substr : String) : Bool := (Index s substr).isSome

/-- Go `strings.Cut`:
`if i := Index(s, sep); i >= 0 { return s[:i], s[i+len(sep):], true }; return s, "", false`. -/
def Cut (s sep : String) : String × String × Bool :=
  match Index s sep with
  | some i => (⟨s.data.take i⟩, ⟨s.data.drop (i + sep.data.length)⟩, true)
  | none => (s, "", false)

end strings

/-! ## Go maps from strings to strings -/

/-- The contents of a non-nil Go map from strings to strings: an association
list in which every key occurs once. -/
abbrev GoMap := List (String × String)

/-- Map read `m[k]` with the comma-ok flag folded into the `Option`. -/
def GoMap.get : GoMap → String → Option String
  | [], _ => none
  | (k', v) :: m, k => if k' = k then some v else GoMap.get m k

/-- Map write `m[k] = v`: overwrite the binding of `k` if there is one, add a
new binding otherwise. -/
def GoMap.set : GoMap → String → String → GoMap
  | [], k, v => [(k, v)]
  | (k', v') :: m, k, v => if k' = k then (k, v) :: m else (k', v') :: GoMap.set m k v

/-- Go `len(m)` of a map. -/
def GoMap.len (m : GoMap) : Nat := m.length

/-- Go `make(map[string]string, n)`: a fresh empty map; the capacity hint `n`
is not observable. -/
def makeMap (_n : Nat) : GoMap := []

/-- Go `len(s)` of a slice of strings; the `nil` slice has length 0. -/
def sliceLen : Option (List String) → Nat
  | none => 0
  | some l => l.length

/-- The elements a `for _, x := range s` loop visits, in order; none for the
`nil` slice. -/
def sliceRange : Option (List String) → List String
  | none => []
  | some l => l

/-! ## The part of `github.com/spf13/pflag` the package calls

The flag library is external.  A flag set is modelled as the sequence of
registrations made on it, each holding exactly the arguments of the call. -/

namespace pflag

/-- The fields of `pflag.Flag` that the descriptors set. -/
structure Flag where
  Name : String
  Shorthand : String
  Usage : String
deriving DecidableEq

/-- The default value handed to a registration, by the type of the flag;
a `time.Duration` is a signed count of nanoseconds. -/
inductive Value where
  | string (s : String)
  | duration (d : Int)
  | stringArray (l : Option (List String))
deriving DecidableEq

/-- One registered flag: the address `target` of the output slot, and the name,
shorthand, default value and usage text it was registered with. -/
structure Registered where
  target : Nat
  name : String
  shorthand : String
  value : Value
  usage : String
deriving DecidableEq

/-- A flag set: the flags registered so far, oldest first. -/
abbrev FlagSet := List Registered

/-- Method `(*FlagSet).StringVarP(p, name, shorthand, value, usage)`. -/
def FlagSet.StringVarP (fs : FlagSet) (p : Nat) (name shorthand value usage : String) :
    FlagSet :=
  fs ++ [⟨p, name, shorthand, .string value, usage⟩]

/-- Method `(*FlagSet).StringVar(p, name, value, usage)`: `StringVarP` with the
empty shorthand. -/
def FlagSet.StringVar (fs : FlagSet) (p : Nat) (name value usage : String) : FlagSet :=
  fs.StringVarP p name "" value usage

/-- Method `(*FlagSet).DurationVarP(p, name, shorthand, value, usage)`. -/
def FlagSet.DurationVarP (fs : FlagSet) (p : Nat) (name shorthand : String) (value : Int)
    (usage : String) : FlagSet :=
  fs ++ [⟨p, name, shorthand, .duration value, usage⟩]

/-- Method `(*FlagSet).StringArrayVarP(p, name, shorthand, value, usage)`. -/
def FlagSet.StringArrayVarP (fs : FlagSet) (p : Nat) (name shorthand : String)
    (value : Option (List String)) (usage : String) : FlagSet :=
  fs ++ [⟨p, name, shorthand, .stringArray value, usage⟩]

end pflag

/-! ## Collaborators declared elsewhere in the repository -/

namespace envelope

/-- Modelled from the spec: the constant `envelope.JWS` of package
`internal/envelope`, which is not part of the file; the spec gives the baseline
default of the signature format as "jws". -/
def JWS : String := "jws"

end envelope

namespace configutil

/-- The configuration object `LoadConfigOnce` returns; `SignatureFormat` is the
only field the package reads. -/
structure Config where
  SignatureFormat : String
deriving DecidableEq

/-- What one call of `LoadConfigOnce` returns: the configuration and the error
(`none` for `nil`).  The declaration of the configuration type is not part of
the file; the binder reads the field only after it has seen a nil error. -/
abbrev LoadResult := Config × Option String

/-- Process-wide state of the memoized load: the cached outcome once the load has
run, and how many times the underlying store has been read. -/
structure Process where
  cached : Option LoadResult
  reads : Nat
deriving DecidableEq

/-- The state of a process that has not loaded its configuration yet. -/
def Process.start : Process := ⟨none, 0⟩

/-- Modelled from the spec: `configutil.LoadConfigOnce` of package
`pkg/configutil`, which is not part of the file.  The spec describes it as a
memoized load: the first call reads the underlying store and caches the outcome
(configuration or error), every later call returns the cached outcome without
reading the store again.  `store i` is what the store would answer to its
read number `i`. -/
def LoadConfigOnce (store : Nat → LoadResult) (st : Process) : LoadResult × Process :=
  match st.cached with
  | some r => (r, st)
  | none => (store st.reads, ⟨some (store st.reads), st.reads + 1⟩)

end configutil

/-! ## Package `cmd` -/

namespace cmd

open pflag configutil

def PflagKey : Flag :=
  { Name := "key"
    Shorthand := "k"
    Usage := "signing key name, for a key previously added to notation's key list." }

def SetPflagKey (fs : FlagSet) (p : Nat) : FlagSet :=
  fs.StringVarP p PflagKey.Name PflagKey.Shorthand "" PflagKey.Usage

def PflagSignatureFormat : Flag :=
  { Name := "signature-format"
    Shorthand := ""
    Usage := "signature envelope format, options: 'jws', 'cose'" }

/-- The binder of the signature format.  `LoadConfigOnce` is the loader it
calls, acting on a state `σ` of its own; the binder returns that state next to
the flag set. -/
def SetPflagSignatureFormat {σ : Type} (LoadConfigOnce : σ → LoadResult × σ) (st : σ)
    (fs : FlagSet) (p : Nat) : σ × FlagSet :=
  let defaultSignatureFormat := envelope.JWS
  -- load config to get signatureFormat
  match LoadConfigOnce st with
  | ((config, err), st') =>
    let defaultSignatureFormat :=
      if err = none ∧ config.SignatureFormat ≠ "" then config.SignatureFormat
      else defaultSignatureFormat
    (st', fs.StringVar p PflagSignatureFormat.Name defaultSignatureFormat
      PflagSignatureFormat.Usage)

def PflagTimestamp : Flag :=
  { Name := "timestamp"
    Shorthand := "t"
    Usage := "timestamp the signed signature via the remote TSA" }

def SetPflagTimestamp (fs : FlagSet) (p : Nat) : FlagSet :=
  fs.StringVarP p PflagTimestamp.Name PflagTimestamp.Shorthand "" PflagTimestamp.Usage

def PflagExpiry : Flag :=
  { Name := "expiry"
    Shorthand := "e"
    Usage := "optional expiry that provides a \"best by use\" time for the artifact. The duration is specified in minutes(m) and/or hours(h). For example: 12h, 30m, 3h20m" }

def SetPflagExpiry (fs : FlagSet) (p : Nat) : FlagSet :=
  fs.DurationVarP p PflagExpiry.Name PflagExpiry.Shorthand 0 PflagExpiry.Usage

def PflagReference : Flag :=
  { Name := "reference"
    Shorthand := "r"
    Usage := "original reference" }

def SetPflagReference (fs : FlagSet) (p : Nat) : FlagSet :=
  fs.StringVarP p PflagReference.Name PflagReference.Shorthand "" PflagReference.Usage

def PflagPluginConfig : Flag :=
  { Name := "plugin-config"
    Shorthand := "c"
    Usage := "\x7bkey\x7d=\x7bvalue\x7d pairs that are passed as it is to a plugin, refer plugin's documentation to set appropriate values" }

def SetPflagPluginConfig (fs : FlagSet) (p : Nat) : FlagSet :=
  fs.StringArrayVarP p PflagPluginConfig.Name PflagPluginConfig.Shorthand none
    PflagPluginConfig.Usage

/-- The six descriptors the package declares, in source order. -/
def registry : List Flag :=
  [PflagKey, PflagSignatureFormat, PflagTimestamp, PflagExpiry, PflagReference,
    PflagPluginConfig]

/-- The text of the error `ParseFlagPluginConfig` builds with `fmt.Errorf`; the
verb `%s` is replaced by the flag name. -/
def parseErrorText (flagName : String) : String :=
  "could not parse flag " ++ flagName ++ ": key-value pair requires \"=\" as separator"

/-- The loop `for _, pair := range config` of `ParseFlagPluginConfig`, run on
the tokens still to visit with the map built so far. -/
def parseLoop (pluginConfig : GoMap) : List String → Option GoMap × Option String
  | [] => (some pluginConfig, none)
  | pair :: rest =>
    match strings.Cut pair "=" with
    | (key, val, found) =>
      if found = false ∨ key = "" ∨ val = "" then
        (none, some (parseErrorText PflagPluginConfig.Name))
      else parseLoop (pluginConfig.set key val) rest

/-- The function `ParseFlagPluginConfig(config []string) (map[string]string, error)`. -/
def ParseFlagPluginConfig (config : Option (List String)) : Option GoMap × Option String :=
  parseLoop (makeMap (sliceLen config)) (sliceRange config)

/-- A sequence of calls of the signature-format binder in one process that
loads its configuration through `configutil.LoadConfigOnce`: call number `i`
binds slot `(calls.get i).2` on flag set `(calls.get i).1`.  Returns the final
process state and the flag set each call produced. -/
def bindSignatureFormats (store : Nat → LoadResult) :
    Process → List (FlagSet × Nat) → Process × List FlagSet
  | st, [] => (st, [])
  | st, (fs, p) :: calls =>
    match SetPflagSignatureFormat (configutil.LoadConfigOnce store) st fs p with
    | (st', fs') =>
      match bindSignatureFormats store st' calls with
      | (st'', out) => (st'', fs' :: out)

end cmd

/-! ## Vocabulary of the specification -/

namespace cmd

/-- The token contains an "=" character. -/
def hasEq (t : String) : Prop := '=' ∈ t.data

instance (t : String) : Decidable (hasEq t) := by unfold hasEq; infer_instance

/-- The portion of a token before its first "=": its longest run of leading
characters other than "=". -/
def beforeEq (t : String) : String := ⟨t.data.takeWhile (fun c => c != '=')⟩

/-- The portion of a token after its first "=": what follows the character that
ends `beforeEq`. -/
def afterEq (t : String) : String := ⟨(t.data.dropWhile (fun c => c != '=')).tail⟩

/-- A token the specification calls malformed: no "=" in it, or nothing before
its first "=", or nothing after its first "=". -/
def Malformed (t : String) : Prop := ¬ hasEq t ∨ beforeEq t = "" ∨ afterEq t = ""

instance (t : String) : Decidable (Malformed t) := by unfold Malformed; infer_instance

/-- The map write the specification attaches to one well-formed token: bind the
portion before its first "=" to the portion after it. -/
def insertToken (m : GoMap) (t : String) : GoMap := m.set (beforeEq t) (afterEq t)

end cmd

/-! ## Lemmas on `strings.Cut` with the separator "=" -/

namespace strings

theorem hasPrefixChars_eq (c : Char) (s : List Char) :
    hasPrefixChars (c :: s) ['='] = (c == '=') := by
  cases s <;> simp [hasPrefixChars]

theorem indexChars_eq (s : List Char) :
    indexChars s ['='] =
      if '=' ∈ s then some (s.takeWhile (fun c => c != '=')).length else none := by
  induction s with
  | nil => simp [indexChars, hasPrefixChars]
  | cons c s ih =>
    rw [indexChars, hasPrefixChars_eq, ih]
    by_cases hc : c = '='
    · subst hc; simp
    · have hc' : ¬ ('=' = c) := fun h => hc h.symm
      by_cases hs : '=' ∈ s <;> simp [hc, hc', hs, List.takeWhile_cons]

theorem take_takeWhile_length (p : Char → Bool) (s : List Char) :
    s.take (s.takeWhile p).length = s.takeWhile p := by
  induction s with
  | nil => simp
  | cons c s ih =>
    by_cases hp : p c = true <;> simp [List.takeWhile_cons, hp, ih]

theorem drop_takeWhile_length (p : Char → Bool) (s : List Char) :
    s.drop (s.takeWhile p).length = s.dropWhile p := by
  induction s with
  | nil => simp
  | cons c s ih =>
    by_cases hp : p c = true <;> simp [List.takeWhile_cons, List.dropWhile_cons, hp, ih]

/-- The code's cut at "=" is the specification's split at the first "=". -/
theorem Cut_eq (t : String) :
    Cut t "=" = (cmd.beforeEq t, cmd.afterEq t, decide (cmd.hasEq t)) := by
  have hsep : ("=" : String).data = ['='] := rfl
  unfold Cut Index
  rw [hsep, indexChars_eq]
  by_cases h : '=' ∈ t.data
  · have hd : (t.data.drop ((t.data.takeWhile (fun c => c != '=')).length + 1)) =
        (t.data.dropWhile (fun c => c != '=')).tail := by
      rw [← List.drop_drop, drop_takeWhile_length, List.drop_one]
    simp only [h, if_true, cmd.beforeEq, cmd.afterEq, cmd.hasEq, take_takeWhile_length,
      List.length_singleton, hd, decide_True]
  · have hall : ∀ c ∈ t.data, (c != '=') = true := by
      intro c hc
      have : c ≠ '=' := fun e => h (e ▸ hc)
      simpa using this
    have htw : t.data.takeWhile (fun c => c != '=') = t.data :=
      List.takeWhile_eq_self_iff.mpr hall
    have hdw : t.data.dropWhile (fun c => c != '=') = [] :=
      List.dropWhile_eq_nil_iff.mpr hall
    simp only [h, if_false, cmd.beforeEq, cmd.afterEq, cmd.hasEq, htw, hdw, List.tail_nil,
      decide_False]

end strings

/-! ## Lemmas on the vocabulary of the specification -/

namespace cmd

theorem data_eq_token (k v : String) : (k ++ "=" ++ v).data = k.data ++ '=' :: v.data := by
  simp [String.data_append]

theorem hasEq_token (k v : String) : hasEq (k ++ "=" ++ v) := by
  simp [hasEq, data_eq_token]

theorem takeWhile_ne_eq (k v : List Char) (hk : '=' ∉ k) :
    (k ++ '=' :: v).takeWhile (fun c => c != '=') = k := by
  induction k with
  | nil => simp
  | cons c k ih =>
    have hc : c ≠ '=' := fun e => hk (by simp [e])
    have hk' : '=' ∉ k := fun h => hk (List.mem_cons_of_mem _ h)
    simp [List.takeWhile_cons, hc, ih hk']

theorem dropWhile_ne_eq (k v : List Char) (hk : '=' ∉ k) :
    (k ++ '=' :: v).dropWhile (fun c => c != '=') = '=' :: v := by
  induction k with
  | nil => simp
  | cons c k ih =>
    have hc : c ≠ '=' := fun e => hk (by simp [e])
    have hk' : '=' ∉ k := fun h => hk (List.mem_cons_of_mem _ h)
    simp [List.dropWhile_cons, hc, ih hk']

theorem beforeEq_token (k v : String) (hk : '=' ∉ k.data) : beforeEq (k ++ "=" ++ v) = k := by
  simp [beforeEq, data_eq_token, takeWhile_ne_eq _ _ hk]

theorem afterEq_token (k v : String) (hk : '=' ∉ k.data) : afterEq (k ++ "=" ++ v) = v := by
  simp [afterEq, data_eq_token, dropWhile_ne_eq _ _ hk]

/-- The portion before the first "=" contains no "=". -/
theorem beforeEq_no_eq (t : String) : '=' ∉ (beforeEq t).data := by
  intro h
  have := List.mem_takeWhile_imp h
  simp at this

theorem chars_eq_of_mem (s : List Char) (h : '=' ∈ s) :
    s = s.takeWhile (fun c => c != '=') ++ '=' :: (s.dropWhile (fun c => c != '=')).tail := by
  induction s with
  | nil => simp at h
  | cons c s ih =>
    by_cases hc : c = '='
    · subst hc; simp
    · have hs : '=' ∈ s := by
        rcases List.mem_cons.mp h with e | e
        · exact absurd e.symm hc
        · exact e
      have := ih hs
      simp only [List.takeWhile_cons, List.dropWhile_cons, bne_iff_ne, ne_eq, hc,
        not_false_eq_true, decide_True, if_true, List.cons_append]
      exact congrArg _ this

/-- A token with an "=" is its portion before, an "=", and its portion after. -/
theorem token_eq_of_hasEq (t : String) (h : hasEq t) :
    t = beforeEq t ++ "=" ++ afterEq t := by
  apply String.ext
  rw [data_eq_token]
  exact chars_eq_of_mem t.data h

end cmd

/-! ## Lemmas on maps -/

theorem GoMap.get_set_same (m : GoMap) (k v : String) : (m.set k v).get k = some v := by
  induction m with
  | nil => simp [GoMap.set, GoMap.get]
  | cons e m ih =>
    obtain ⟨k', v'⟩ := e
    by_cases h : k' = k <;> simp [GoMap.set, GoMap.get, h, ih]

theorem GoMap.get_set_other (m : GoMap) (k v k' : String) (h : k ≠ k') :
    (m.set k v).get k' = m.get k' := by
  induction m with
  | nil => simp [GoMap.set, GoMap.get, h]
  | cons e m ih =>
    obtain ⟨k0, v0⟩ := e
    by_cases h0 : k0 = k
    · subst h0; simp [GoMap.set, GoMap.get, h]
    · by_cases h1 : k0 = k'
      · subst h1; simp [GoMap.set, GoMap.get, h0]
      · simp [GoMap.set, GoMap.get, h0, h1, ih]

theorem GoMap.keys_set (m : GoMap) (k v : String) :
    (m.set k v).map Prod.fst =
      if k ∈ m.map Prod.fst then m.map Prod.fst else m.map Prod.fst ++ [k] := by
  induction m with
  | nil => simp [GoMap.set]
  | cons e m ih =>
    obtain ⟨k0, v0⟩ := e
    by_cases h0 : k0 = k
    · subst h0; simp [GoMap.set]
    · have h0' : ¬ k = k0 := fun e => h0 e.symm
      by_cases hm : k ∈ m.map Prod.fst
      · simp only [GoMap.set, h0, if_false, List.map_cons, ih, hm, if_true,
          List.mem_cons, or_true]
      · simp only [GoMap.set, h0, if_false, List.map_cons, ih, hm, List.mem_cons, h0',
          or_self, List.cons_append]

/-- A map write keeps the keys pairwise distinct. -/
theorem GoMap.nodup_set (m : GoMap) (k v : String) (h : (m.map Prod.fst).Nodup) :
    ((m.set k v).map Prod.fst).Nodup := by
  rw [GoMap.keys_set]
  by_cases hm : k ∈ m.map Prod.fst
  · simpa [hm] using h
  · rw [if_neg hm]
    exact List.Nodup.append h (List.nodup_singleton k) (by simpa using hm)

/-! ## Lemmas on the parsing loop -/

namespace cmd

theorem parseLoop_cons_bad (m : GoMap) (t : String) (rest : List String) (h : Malformed t) :
    parseLoop m (t :: rest) = (none, some (parseErrorText PflagPluginConfig.Name)) := by
  have hc : (decide (hasEq t) = false ∨ beforeEq t = "" ∨ afterEq t = "") := by
    simpa [Malformed] using h
  simp only [parseLoop, strings.Cut_eq, if_pos hc]

theorem parseLoop_cons_ok (m : GoMap) (t : String) (rest : List String) (h : ¬ Malformed t) :
    parseLoop m (t :: rest) = parseLoop (insertToken m t) rest := by
  have hc : ¬ (decide (hasEq t) = false ∨ beforeEq t = "" ∨ afterEq t = "") := by
    simpa [Malformed] using h
  simp only [parseLoop, strings.Cut_eq, if_neg hc, insertToken]

theorem parseLoop_ok (ts : List String) (m : GoMap) (h : ∀ t ∈ ts, ¬ Malformed t) :
    parseLoop m ts = (some (ts.foldl insertToken m), none) := by
  induction ts generalizing m with
  | nil => simp [parseLoop]
  | cons t ts ih =>
    rw [parseLoop_cons_ok m t ts (h t (List.mem_cons_self _ _)), List.foldl_cons]
    exact ih _ (fun t' ht' => h t' (List.mem_cons_of_mem _ ht'))

theorem parseLoop_bad (ts : List String) (m : GoMap) (h : ∃ t ∈ ts, Malformed t) :
    parseLoop m ts = (none, some (parseErrorText PflagPluginConfig.Name)) := by
  induction ts generalizing m with
  | nil => simp at h
  | cons t ts ih =>
    by_cases ht : Malformed t
    · exact parseLoop_cons_bad m t ts ht
    · rw [parseLoop_cons_ok m t ts ht]
      obtain ⟨t', ht', hm⟩ := h
      rcases List.mem_cons.mp ht' with e | e
      · exact absurd (e ▸ hm) ht
      · exact ih _ ⟨t', e, hm⟩

/-- The keys of a map the loop returns are pairwise distinct. -/
theorem parseLoop_nodup (ts : List String) (m r : GoMap) (h : (m.map Prod.fst).Nodup)
    (hr : (parseLoop m ts).1 = some r) : (r.map Prod.fst).Nodup := by
  induction ts generalizing m with
  | nil =>
    have : m = r := by simpa [parseLoop] using hr
    exact this ▸ h
  | cons t ts ih =>
    by_cases ht : Malformed t
    · rw [parseLoop_cons_bad m t ts ht] at hr; simp at hr
    · rw [parseLoop_cons_ok m t ts ht] at hr
      exact ih _ (GoMap.nodup_set m _ _ h) hr

/-- Every run of the loop ends in one of two ways. -/
theorem parseLoop_cases (ts : List String) (m : GoMap) :
    ((∀ t ∈ ts, ¬ Malformed t) ∧ parseLoop m ts = (some (ts.foldl insertToken m), none)) ∨
    ((∃ t ∈ ts, Malformed t) ∧
      parseLoop m ts = (none, some (parseErrorText PflagPluginConfig.Name))) := by
  by_cases h : ∃ t ∈ ts, Malformed t
  · exact Or.inr ⟨h, parseLoop_bad ts m h⟩
  · have h' : ∀ t ∈ ts, ¬ Malformed t := fun t ht hm => h ⟨t, ht, hm⟩
    exact Or.inl ⟨h', parseLoop_ok ts m h'⟩

theorem foldl_insertToken_get_absent (ts : List String) (m : GoMap) (k : String)
    (h : ∀ t ∈ ts, beforeEq t ≠ k) : (ts.foldl insertToken m).get k = m.get k := by
  induction ts generalizing m with
  | nil => rfl
  | cons t ts ih =>
    rw [List.foldl_cons, ih _ (fun t' ht' => h t' (List.mem_cons_of_mem _ ht'))]
    exact GoMap.get_set_other m _ _ k (h t (List.mem_cons_self _ _))

theorem foldl_insertToken_get_last (pre post : List String) (t : String) (m : GoMap) (k : String)
    (ht : beforeEq t = k) (hpost : ∀ t' ∈ post, beforeEq t' ≠ k) :
    ((pre ++ t :: post).foldl insertToken m).get k = some (afterEq t) := by
  rw [List.foldl_append, List.foldl_cons, foldl_insertToken_get_absent post _ k hpost, insertToken, ht]
  exact GoMap.get_set_same _ _ _

end cmd

/-! ## The plugin-config parser -/

namespace cmd

/-- C1: `ParseFlagPluginConfig` returns an error exactly when some token is
malformed (no "=", or nothing before its first "=", or nothing after it); on
every other input it returns a map and no error. -/
theorem ParseFlagPluginConfig_error_iff (config : Option (List String)) :
    ((ParseFlagPluginConfig config).2 ≠ none ↔
      ∃ t ∈ sliceRange config, ¬ hasEq t ∨ beforeEq t = "" ∨ afterEq t = "") ∧
    ((¬ ∃ t ∈ sliceRange config, ¬ hasEq t ∨ beforeEq t = "" ∨ afterEq t = "") →
      ∃ m : GoMap, ParseFlagPluginConfig config = (some m, none)) := by
  unfold ParseFlagPluginConfig
  rcases parseLoop_cases (sliceRange config) (makeMap (sliceLen config)) with ⟨h, e⟩ | ⟨h, e⟩
  · have hn : ¬ ∃ t ∈ sliceRange config, ¬ hasEq t ∨ beforeEq t = "" ∨ afterEq t = "" :=
      fun ⟨t, ht, hm⟩ => h t ht hm
    refine ⟨⟨fun he => absurd (by rw [e]) he, fun hx => absurd hx hn⟩, fun _ => ⟨_, e⟩⟩
  · refine ⟨⟨fun _ => h, fun _ => by rw [e]; simp⟩, fun hn => absurd h hn⟩

/-- C2: on success, a key that is the portion before the first "=" of no token
is absent from the map, and any other key is bound to the portion after the
first "=" of the last token that has it before its first "=". -/
theorem ParseFlagPluginConfig_last_wins (config : Option (List String)) (m : GoMap)
    (hok : ParseFlagPluginConfig config = (some m, none)) (k : String) :
    ((∀ t ∈ sliceRange config, beforeEq t ≠ k) → m.get k = none) ∧
    (∀ (pre post : List String) (t : String), sliceRange config = pre ++ t :: post →
      beforeEq t = k → (∀ u ∈ post, beforeEq u ≠ k) → m.get k = some (afterEq t)) := by
  unfold ParseFlagPluginConfig at hok
  rcases parseLoop_cases (sliceRange config) (makeMap (sliceLen config)) with ⟨_, e⟩ | ⟨_, e⟩
  · rw [e] at hok
    have hm : (sliceRange config).foldl insertToken (makeMap (sliceLen config)) = m := by
      simpa using hok
    subst hm
    refine ⟨fun habs => ?_, fun pre post t hsplit ht hpost => ?_⟩
    · rw [foldl_insertToken_get_absent _ _ k habs]; rfl
    · rw [hsplit]; exact foldl_insertToken_get_last pre post t _ k ht hpost
  · rw [e] at hok; simp at hok

/-- Witness of C2 on the tokens "a=1", "b=2", "a=3": the repeated key "a" is no
error and ends bound to "3", and "zz" is absent. -/
theorem ParseFlagPluginConfig_last_wins_witness :
    ParseFlagPluginConfig (some ["a=1", "b=2", "a=3"]) = (some [("a", "3"), ("b", "2")], none) ∧
    GoMap.get [("a", "3"), ("b", "2")] "a" = some (afterEq "a=3") ∧
    GoMap.get [("a", "3"), ("b", "2")] "zz" = none :=
  ⟨by decide,
   (ParseFlagPluginConfig_last_wins (some ["a=1", "b=2", "a=3"]) [("a", "3"), ("b", "2")]
      (by decide) "a").2 ["a=1", "b=2"] [] "a=3" (by decide) (by decide) (by decide),
   (ParseFlagPluginConfig_last_wins (some ["a=1", "b=2", "a=3"]) [("a", "3"), ("b", "2")]
      (by decide) "zz").1 (by decide)⟩

/-- Parsing one token `k ++ "=" ++ v` whose `k` has no "=" and where neither
part is empty. -/
theorem parse_single (k v : String) (hk : k ≠ "") (hk' : '=' ∉ k.data) (hv : v ≠ "") :
    ParseFlagPluginConfig (some [k ++ "=" ++ v]) = (some [(k, v)], none) := by
  have hwf : ¬ Malformed (k ++ "=" ++ v) := by
    unfold Malformed
    rw [beforeEq_token k v hk', afterEq_token k v hk']
    simp [hasEq_token, hk, hv]
  have h := parseLoop_ok [k ++ "=" ++ v] (makeMap 1) (by simpa using hwf)
  simp only [List.foldl_cons, List.foldl_nil, insertToken, beforeEq_token k v hk',
    afterEq_token k v hk', makeMap, GoMap.set] at h
  simpa [ParseFlagPluginConfig, sliceRange, sliceLen, makeMap] using h

/-- C3, as stated, fails: with the non-empty `k = "="` and `v = "x"` the token
is "==x" and the parser returns the error, and with the non-empty `k = "a=b"` and
`v = "c"` the token is "a=b=c" and the parser binds "a" to "b=c", not "a=b" to "c". -/
theorem ParseFlagPluginConfig_single_counterexample :
    (("=" : String) ≠ "" ∧ ("x" : String) ≠ "" ∧
      ParseFlagPluginConfig (some ["=" ++ "=" ++ "x"]) ≠ (some [("=", "x")], none) ∧
      (ParseFlagPluginConfig (some ["=" ++ "=" ++ "x"])).2 ≠ none) ∧
    (("a=b" : String) ≠ "" ∧ ("c" : String) ≠ "" ∧
      ParseFlagPluginConfig (some ["a=b" ++ "=" ++ "c"]) ≠ (some [("a=b", "c")], none) ∧
      ParseFlagPluginConfig (some ["a=b" ++ "=" ++ "c"]) = (some [("a", "b=c")], none)) := by
  decide

/-- C3, amended: for all non-empty `k` and `v` where `k` contains no "=", parsing
the one token `k ++ "=" ++ v` succeeds and returns exactly the one-entry map
binding `k` to `v`: it has one entry, `k` reads `v`, every other key is absent. -/
theorem ParseFlagPluginConfig_single (k v : String) (hk : k ≠ "") (hk' : '=' ∉ k.data)
    (hv : v ≠ "") :
    ∃ m : GoMap, ParseFlagPluginConfig (some [k ++ "=" ++ v]) = (some m, none) ∧
      m = [(k, v)] ∧ m.len = 1 ∧ m.get k = some v ∧ ∀ j, j ≠ k → m.get j = none := by
  refine ⟨[(k, v)], parse_single k v hk hk' hv, rfl, rfl, by simp [GoMap.get], ?_⟩
  intro j hj
  have hj' : ¬ k = j := fun e => hj e.symm
  simp [GoMap.get, hj']

/-- Witness of the amended C3 at `k = "name"`, `v = "value"`. -/
theorem ParseFlagPluginConfig_single_witness :
    ∃ m : GoMap, ParseFlagPluginConfig (some [("name" : String) ++ "=" ++ "value"]) =
        (some m, none) ∧
      m = [("name", "value")] ∧ m.len = 1 ∧ m.get "name" = some "value" ∧
      ∀ j, j ≠ "name" → m.get j = none :=
  ParseFlagPluginConfig_single "name" "value" (by decide) (by decide) (by decide)

/-- C5: the token is split at its first "=" only.  For a non-empty `k` without
"=" and a non-empty `v`, which may contain or begin with "=", `strings.Cut`
returns `k` and the whole of `v`, and parsing the one token `k ++ "=" ++ v`
succeeds with `k` bound to `v` unchanged. -/
theorem ParseFlagPluginConfig_first_eq (k v : String) (hk : k ≠ "") (hk' : '=' ∉ k.data)
    (hv : v ≠ "") :
    strings.Cut (k ++ "=" ++ v) "=" = (k, v, true) ∧
    ∃ m : GoMap, ParseFlagPluginConfig (some [k ++ "=" ++ v]) = (some m, none) ∧
      m.get k = some v := by
  refine ⟨?_, [(k, v)], parse_single k v hk hk' hv, by simp [GoMap.get]⟩
  rw [strings.Cut_eq, beforeEq_token k v hk', afterEq_token k v hk']
  simp [hasEq_token]

/-- Witness of C5 at `k = "k"` and `v = "= a==b "`, a value that begins with "=",
contains further "=" and has blanks at both ends. -/
theorem ParseFlagPluginConfig_first_eq_witness :
    strings.Cut (("k" : String) ++ "=" ++ "= a==b ") "=" = ("k", "= a==b ", true) ∧
    ∃ m : GoMap, ParseFlagPluginConfig (some [("k" : String) ++ "=" ++ "= a==b "]) =
        (some m, none) ∧
      m.get "k" = some "= a==b " :=
  ParseFlagPluginConfig_first_eq "k" "= a==b " (by decide) (by decide) (by decide)

/-- C6: whenever `ParseFlagPluginConfig` fails, the error text is exactly
`could not parse flag plugin-config: key-value pair requires "=" as separator`,
which contains the name of the `PflagPluginConfig` descriptor, and the returned
map is nil. -/
theorem ParseFlagPluginConfig_error_text (config : Option (List String))
    (hfail : (ParseFlagPluginConfig config).2 ≠ none) :
    ParseFlagPluginConfig config =
      (none, some "could not parse flag plugin-config: key-value pair requires \"=\" as separator") ∧
    PflagPluginConfig.Name = "plugin-config" ∧
    strings.Contains
      "could not parse flag plugin-config: key-value pair requires \"=\" as separator"
      PflagPluginConfig.Name = true := by
  refine ⟨?_, rfl, by decide⟩
  unfold ParseFlagPluginConfig at hfail ⊢
  rcases parseLoop_cases (sliceRange config) (makeMap (sliceLen config)) with ⟨_, e⟩ | ⟨_, e⟩
  · rw [e] at hfail; exact absurd rfl hfail
  · rw [e]; rfl

/-- Witness of C6 on the tokens "a=1", "novalue": the first token is well-formed,
the second is not, and no partial map is returned. -/
theorem ParseFlagPluginConfig_error_text_witness :
    ParseFlagPluginConfig (some ["a=1", "novalue"]) =
      (none, some "could not parse flag plugin-config: key-value pair requires \"=\" as separator") ∧
    PflagPluginConfig.Name = "plugin-config" ∧
    strings.Contains
      "could not parse flag plugin-config: key-value pair requires \"=\" as separator"
      PflagPluginConfig.Name = true :=
  ParseFlagPluginConfig_error_text (some ["a=1", "novalue"]) (by decide)

/-- C7: on the empty list of tokens, and on the nil list, `ParseFlagPluginConfig`
returns the empty map (not the nil map) and no error. -/
theorem ParseFlagPluginConfig_empty :
    ParseFlagPluginConfig (some []) = (some [], none) ∧
    ParseFlagPluginConfig none = (some [], none) ∧
    GoMap.len [] = 0 := by
  refine ⟨rfl, rfl, rfl⟩

end cmd

/-! ## The descriptors and the binders -/

namespace cmd

open pflag configutil

/-- C9: the six descriptors have non-empty names, no two share a name, every
non-empty shorthand is one character, and no two non-empty shorthands are equal. -/
theorem registry_unique :
    registry.length = 6 ∧
    (∀ d ∈ registry, d.Name ≠ "") ∧
    (registry.map (fun d => d.Name)).Nodup ∧
    (∀ d ∈ registry, d.Shorthand ≠ "" → d.Shorthand.length = 1) ∧
    ((registry.map (fun d => d.Shorthand)).filter (fun x => x ≠ "")).Nodup := by
  decide

/-- C8: each plain binder adds one flag to the flag set, registered with the
name, shorthand and usage text of its own descriptor and the zero default of its
type; the signature-format binder adds one flag named "signature-format" with no
shorthand. -/
theorem binders_register_own_descriptor (fs : FlagSet) (p : Nat) :
    (SetPflagKey fs p = fs ++ [⟨p, PflagKey.Name, PflagKey.Shorthand, .string "",
        PflagKey.Usage⟩] ∧ PflagKey.Name = "key" ∧ PflagKey.Shorthand = "k") ∧
    (SetPflagTimestamp fs p = fs ++ [⟨p, PflagTimestamp.Name, PflagTimestamp.Shorthand,
        .string "", PflagTimestamp.Usage⟩] ∧
      PflagTimestamp.Name = "timestamp" ∧ PflagTimestamp.Shorthand = "t") ∧
    (SetPflagReference fs p = fs ++ [⟨p, PflagReference.Name, PflagReference.Shorthand,
        .string "", PflagReference.Usage⟩] ∧
      PflagReference.Name = "reference" ∧ PflagReference.Shorthand = "r") ∧
    (SetPflagExpiry fs p = fs ++ [⟨p, PflagExpiry.Name, PflagExpiry.Shorthand, .duration 0,
        PflagExpiry.Usage⟩] ∧ PflagExpiry.Name = "expiry" ∧ PflagExpiry.Shorthand = "e") ∧
    (SetPflagPluginConfig fs p = fs ++ [⟨p, PflagPluginConfig.Name,
        PflagPluginConfig.Shorthand, .stringArray none, PflagPluginConfig.Usage⟩] ∧
      PflagPluginConfig.Name = "plugin-config" ∧ PflagPluginConfig.Shorthand = "c") ∧
    (∀ (σ : Type) (load : σ → LoadResult × σ) (st : σ), ∃ d : String,
      (SetPflagSignatureFormat load st fs p).2 = fs ++ [⟨p, PflagSignatureFormat.Name, "",
        .string d, PflagSignatureFormat.Usage⟩] ∧
      PflagSignatureFormat.Name = "signature-format") := by
  refine ⟨⟨rfl, rfl, rfl⟩, ⟨rfl, rfl, rfl⟩, ⟨rfl, rfl, rfl⟩, ⟨rfl, rfl, rfl⟩, ⟨rfl, rfl, rfl⟩,
    fun σ load st => ⟨_, rfl, rfl⟩⟩

/-- C4: the default registered for the signature format follows the outcome of
the load.  With no error and a non-empty `SignatureFormat` field the default is
that field; with an error, whatever it is, or an empty field, the default is
"jws".  In both cases the binder returns the flag set with the flag added and
the loader's new state, and nothing else: the load error is not passed on. -/
theorem SetPflagSignatureFormat_default (σ : Type) (load : σ → LoadResult × σ) (st : σ)
    (fs : FlagSet) (p : Nat) :
    ((load st).1.2 = none → (load st).1.1.SignatureFormat ≠ "" →
      SetPflagSignatureFormat load st fs p =
        ((load st).2, fs ++ [⟨p, "signature-format", "",
          .string (load st).1.1.SignatureFormat, PflagSignatureFormat.Usage⟩])) ∧
    ((load st).1.2 ≠ none ∨ (load st).1.1.SignatureFormat = "" →
      SetPflagSignatureFormat load st fs p =
        ((load st).2, fs ++ [⟨p, "signature-format", "", .string "jws",
          PflagSignatureFormat.Usage⟩])) := by
  refine ⟨fun herr hfield => ?_, fun h => ?_⟩
  · simp [SetPflagSignatureFormat, herr, hfield, FlagSet.StringVar, FlagSet.StringVarP,
      PflagSignatureFormat]
  · have hc : ¬ ((load st).1.2 = none ∧ (load st).1.1.SignatureFormat ≠ "") := by
      rintro ⟨h1, h2⟩
      rcases h with h | h
      · exact h h1
      · exact h2 h
    simp [SetPflagSignatureFormat, hc, FlagSet.StringVar, FlagSet.StringVarP,
      PflagSignatureFormat, envelope.JWS]

/-- Witness of C4: a load returning the format "cose" and no error registers the
default "cose"; a load returning the error "config.json: permission denied"
registers the default "jws", even next to a configuration whose field reads
"cose". -/
theorem SetPflagSignatureFormat_default_witness :
    SetPflagSignatureFormat (fun (n : Nat) => ((⟨"cose"⟩, none), n + 1)) 0 [] 7 =
      (1, [⟨7, "signature-format", "", .string "cose", PflagSignatureFormat.Usage⟩]) ∧
    SetPflagSignatureFormat
        (fun (n : Nat) => ((⟨"cose"⟩, some "config.json: permission denied"), n + 1)) 0 [] 7 =
      (1, [⟨7, "signature-format", "", .string "jws", PflagSignatureFormat.Usage⟩]) :=
  ⟨(SetPflagSignatureFormat_default Nat (fun n => ((⟨"cose"⟩, none), n + 1)) 0 [] 7).1
      rfl (by decide),
   (SetPflagSignatureFormat_default Nat
      (fun n => ((⟨"cose"⟩, some "config.json: permission denied"), n + 1)) 0 [] 7).2
      (Or.inl (by simp))⟩

/-! ## Repeated binding under the memoized load -/

theorem SetPflagSignatureFormat_cached (store : Nat → LoadResult) (st : Process)
    (r : LoadResult) (h : st.cached = some r) (fs : FlagSet) (p : Nat) :
    SetPflagSignatureFormat (configutil.LoadConfigOnce store) st fs p =
      (st, fs ++ [⟨p, "signature-format", "",
        .string (if r.2 = none ∧ r.1.SignatureFormat ≠ "" then r.1.SignatureFormat
          else envelope.JWS), PflagSignatureFormat.Usage⟩]) := by
  simp [SetPflagSignatureFormat, configutil.LoadConfigOnce, h, FlagSet.StringVar,
    FlagSet.StringVarP, PflagSignatureFormat]

theorem bindSignatureFormats_cached (store : Nat → LoadResult) (st : Process)
    (r : LoadResult) (h : st.cached = some r) (calls : List (FlagSet × Nat)) :
    bindSignatureFormats store st calls =
      (st, calls.map (fun c => c.1 ++ [⟨c.2, "signature-format", "",
        .string (if r.2 = none ∧ r.1.SignatureFormat ≠ "" then r.1.SignatureFormat
          else envelope.JWS), PflagSignatureFormat.Usage⟩])) := by
  induction calls with
  | nil => rfl
  | cons c calls ih =>
    obtain ⟨fs, p⟩ := c
    simp only [bindSignatureFormats, SetPflagSignatureFormat_cached store st r h, ih,
      List.map_cons]

theorem SetPflagSignatureFormat_start (store : Nat → LoadResult) (fs : FlagSet) (p : Nat) :
    SetPflagSignatureFormat (configutil.LoadConfigOnce store) Process.start fs p =
      (⟨some (store 0), 1⟩, fs ++ [⟨p, "signature-format", "",
        .string (if (store 0).2 = none ∧ (store 0).1.SignatureFormat ≠ "" then
          (store 0).1.SignatureFormat else envelope.JWS), PflagSignatureFormat.Usage⟩]) := by
  simp [SetPflagSignatureFormat, configutil.LoadConfigOnce, Process.start, FlagSet.StringVar,
    FlagSet.StringVarP, PflagSignatureFormat]

/-- C10: in a process that starts with nothing loaded, after any sequence of
calls of the signature-format binder the underlying store has been read at most
once; if there was a call, the store was read exactly once, by the first call,
and its outcome is the cached one; and all calls register the same default. -/
theorem LoadConfigOnce_at_most_once (store : Nat → LoadResult)
    (calls : List (FlagSet × Nat)) :
    (bindSignatureFormats store Process.start calls).1.reads ≤ 1 ∧
    (calls ≠ [] →
      (bindSignatureFormats store Process.start calls).1 = ⟨some (store 0), 1⟩) ∧
    ∃ d : String, (bindSignatureFormats store Process.start calls).2 =
      calls.map (fun c => c.1 ++ [⟨c.2, "signature-format", "", .string d,
        PflagSignatureFormat.Usage⟩]) := by
  cases calls with
  | nil => exact ⟨Nat.zero_le 1, fun h => absurd rfl h, "", rfl⟩
  | cons c calls =>
    obtain ⟨fs, p⟩ := c
    have e : bindSignatureFormats store Process.start ((fs, p) :: calls) =
        (⟨some (store 0), 1⟩, ((fs, p) :: calls).map (fun c => c.1 ++ [⟨c.2,
          "signature-format", "",
          .string (if (store 0).2 = none ∧ (store 0).1.SignatureFormat ≠ "" then
            (store 0).1.SignatureFormat else envelope.JWS),
          PflagSignatureFormat.Usage⟩])) := by
      simp only [bindSignatureFormats, SetPflagSignatureFormat_start,
        bindSignatureFormats_cached store ⟨some (store 0), 1⟩ (store 0) rfl, List.map_cons]
    rw [e]
    exact ⟨le_refl 1, fun _ => rfl, _, rfl⟩

/-- Witness of C10: three calls against a store whose first read fails and whose
later reads would return "cose": the store is read once and all three calls
register "jws". -/
theorem LoadConfigOnce_at_most_once_witness :
    bindSignatureFormats
        (fun i => if i = 0 then (⟨""⟩, some "open config.json: no such file") else
          (⟨"cose"⟩, none))
        Process.start [([], 1), ([], 2), ([], 3)] =
      (⟨some (⟨""⟩, some "open config.json: no such file"), 1⟩,
        [[⟨1, "signature-format", "", .string "jws", PflagSignatureFormat.Usage⟩],
         [⟨2, "signature-format", "", .string "jws", PflagSignatureFormat.Usage⟩],
         [⟨3, "signature-format", "", .string "jws", PflagSignatureFormat.Usage⟩]]) ∧
    (bindSignatureFormats
        (fun i => if i = 0 then (⟨""⟩, some "open config.json: no such file") else
          (⟨"cose"⟩, none))
        Process.start [([], 1), ([], 2), ([], 3)]).1.reads ≤ 1 :=
  ⟨by decide,
   (LoadConfigOnce_at_most_once
      (fun i => if i = 0 then (⟨""⟩, some "open config.json: no such file") else
        (⟨"cose"⟩, none))
      [([], 1), ([], 2), ([], 3)]).1⟩

end cmd
